import Mathlib

/-!
Verification of the graph transformation and lowering pipeline.

The development shallowly embeds the graph model, the preprocessing
injector, the low-precision transformation engine's fixed-point driver
and dequantization algebra, the primitive program builder, and the
GPU-plugin lowering helpers (`CreateReorgYoloOp`, `deconvolution`) and
the sample `FormatReader::ReaderPtr` wrapper.  Components whose code is
known only through the specification are marked `Modelled from the
spec:` in their doc comments.
-/

namespace OV

/-- Error kinds of the compilation core (spec section 7). -/
inductive Err where
  | InvalidGraph
  | CycleDetected
  | UnsupportedConversion
  | UnsupportedOperation
  | ShapeMismatch
  | StaticShapeRequired
  | UnresolvedDependency
  | ConvergenceExceeded
deriving DecidableEq

/-- Element types appearing in tensor descriptors. -/
inductive ElemType where
  | f32
  | f16
  | u8
  | i8
  | u16
  | i16
  | undefined
deriving DecidableEq

/-- Modelled from the spec: a Node of the Graph Model (spec section 3) —
a named operation instance whose inputs are plain identifiers of the
producing nodes, never ownership pointers.  The Graph Model itself is
not among the available source files; only its callers are. -/
structure Node where
  id : Nat
  kind : String
  inputs : List Nat
deriving DecidableEq

/-- Modelled from the spec: a Graph is an ordered set of Nodes; the
order is the insertion order. -/
structure Graph where
  nodes : List Node
deriving DecidableEq

/-- Checks that every node in the list only references producer ids
drawn from `seen` or from nodes appearing earlier in the list.  This is
the spec section 3 invariant "every non-Parameter node's inputs
reference nodes already present in the graph and topologically precede
it". -/
def depsOkB (seen : List Nat) : List Node → Bool
  | [] => true
  | n :: rest => (n.inputs.all fun a => decide (a ∈ seen)) && depsOkB (n.id :: seen) rest

/-- Modelled from the spec: `validate()` of the Graph Model — checks
the structural invariants (unique node ids, inputs reference earlier
nodes) and fails with `InvalidGraph` otherwise. -/
def validate (g : Graph) : Except Err Unit :=
  if (g.nodes.map Node.id).Nodup ∧ depsOkB [] g.nodes = true then
    .ok ()
  else
    .error .InvalidGraph

/-- The first node, in insertion order, all of whose inputs were
already emitted. -/
def findReady (seen : List Nat) (rem : List Node) : Option Node :=
  rem.find? fun n => n.inputs.all fun a => decide (a ∈ seen)

/-- One round of the order computation: emit the first ready node and
recurse on the remaining ones; report `CycleDetected` when nodes remain
but none is ready. -/
def topoGo : Nat → List Nat → List Node → Except Err (List Node)
  | _, _, [] => .ok []
  | 0, _, _ :: _ => .error .CycleDetected
  | fuel + 1, seen, n :: rest =>
    match findReady seen (n :: rest) with
    | none => .error .CycleDetected
    | some m =>
      match topoGo fuel (m.id :: seen) ((n :: rest).erase m) with
      | .ok l => .ok (m :: l)
      | .error e => .error e

/-- Modelled from the spec: `topological_order()` — a deterministic
sequence of the graph's nodes, stable under ties by insertion order,
failing with `CycleDetected` when the graph admits no dependency
order. -/
def topologicalOrder (g : Graph) : Except Err (List Node) :=
  topoGo g.nodes.length [] g.nodes

/-- The graph admits a dependency-respecting enumeration: some
permutation of its nodes in which every input references an earlier
node.  This is acyclicity for the identifier-based graph model. -/
def hasTopoOrder (g : Graph) : Prop :=
  ∃ l : List Node, l.Perm g.nodes ∧ depsOkB [] l = true

lemma depsOkB_cons {seen : List Nat} {n : Node} {rest : List Node}
    (h : depsOkB seen (n :: rest) = true) :
    (∀ a ∈ n.inputs, a ∈ seen) ∧ depsOkB (n.id :: seen) rest = true := by
  have h' := h
  simp only [depsOkB, Bool.and_eq_true, List.all_eq_true, decide_eq_true_eq] at h'
  exact h'

lemma depsOkB_cons_intro {seen : List Nat} {n : Node} {rest : List Node}
    (h1 : ∀ a ∈ n.inputs, a ∈ seen) (h2 : depsOkB (n.id :: seen) rest = true) :
    depsOkB seen (n :: rest) = true := by
  simp only [depsOkB, Bool.and_eq_true, List.all_eq_true, decide_eq_true_eq]
  exact ⟨h1, h2⟩

lemma depsOkB_mono :
    ∀ (l : List Node) (seen seen' : List Nat),
      (∀ a ∈ seen, a ∈ seen') → depsOkB seen l = true → depsOkB seen' l = true := by
  intro l
  induction l with
  | nil => intro seen seen' _ _; rfl
  | cons n rest ih =>
    intro seen seen' hsub h
    obtain ⟨h1, h2⟩ := depsOkB_cons h
    refine depsOkB_cons_intro (fun a ha => hsub a (h1 a ha)) ?_
    refine ih (n.id :: seen) (n.id :: seen') ?_ h2
    intro a ha
    rcases List.mem_cons.mp ha with h | h
    · exact List.mem_cons.mpr (Or.inl h)
    · exact List.mem_cons.mpr (Or.inr (hsub a h))

lemma depsOkB_erase {m : Node} :
    ∀ (l : List Node) (seen : List Nat), m ∈ l → depsOkB seen l = true →
      depsOkB (m.id :: seen) (l.erase m) = true := by
  intro l
  induction l with
  | nil => intro seen h; cases h
  | cons n rest ih =>
    intro seen hmem h
    obtain ⟨h1, h2⟩ := depsOkB_cons h
    by_cases hnm : n = m
    · subst hnm
      simpa [List.erase_cons_head] using h2
    · have hmem' : m ∈ rest := by
        rcases List.mem_cons.mp hmem with h | h
        · exact absurd h.symm hnm
        · exact h
      have hrec : depsOkB (m.id :: n.id :: seen) (rest.erase m) = true :=
        ih (n.id :: seen) hmem' h2
      have hne : ¬(n == m) := by
        simp only [beq_iff_eq]
        exact hnm
      rw [List.erase_cons_tail hne]
      refine depsOkB_cons_intro ?_ ?_
      · intro a ha
        exact List.mem_cons.mpr (Or.inr (h1 a ha))
      · refine depsOkB_mono _ _ _ ?_ hrec
        intro a ha
        rcases List.mem_cons.mp ha with h | h
        · simp [h]
        · rcases List.mem_cons.mp h with h' | h'
          · simp [h']
          · simp [h']

lemma topoGo_of_depsOk :
    ∀ (rem : List Node) (seen : List Nat) (fuel : Nat),
      rem.length ≤ fuel → depsOkB seen rem = true → topoGo fuel seen rem = .ok rem := by
  intro rem
  induction rem with
  | nil => intro seen fuel _ _; cases fuel <;> rfl
  | cons n rest ih =>
    intro seen fuel hlen h
    obtain ⟨h1, h2⟩ := depsOkB_cons h
    cases fuel with
    | zero => simp at hlen
    | succ f =>
      have hpred : (n.inputs.all fun a => decide (a ∈ seen)) = true := by
        rw [List.all_eq_true]
        intro a ha
        simpa using h1 a ha
      have hfind : findReady seen (n :: rest) = some n := by
        unfold findReady
        exact List.find?_cons_of_pos _ hpred
      have herase : (n :: rest).erase n = rest := List.erase_cons_head n rest
      have hrest : rest.length ≤ f := by
        simpa using Nat.le_of_succ_le_succ (by simpa using hlen)
      have hrec := ih (n.id :: seen) f hrest h2
      simp only [topoGo, hfind, herase, hrec]

lemma validate_ok_iff {g : Graph} :
    validate g = .ok () ↔ (g.nodes.map Node.id).Nodup ∧ depsOkB [] g.nodes = true := by
  unfold validate
  split <;> simp_all

lemma topo_of_valid {g : Graph} (h : validate g = .ok ()) :
    topologicalOrder g = .ok g.nodes := by
  obtain ⟨-, h2⟩ := validate_ok_iff.mp h
  exact topoGo_of_depsOk g.nodes [] g.nodes.length le_rfl h2

lemma topoGo_error_no_order :
    ∀ (fuel : Nat) (seen : List Nat) (rem : List Node),
      rem.length ≤ fuel →
      topoGo fuel seen rem = .error .CycleDetected →
      ¬ ∃ l : List Node, l.Perm rem ∧ depsOkB seen l = true := by
  intro fuel
  induction fuel with
  | zero =>
    intro seen rem hlen herr
    have : rem = [] := List.length_eq_zero.mp (Nat.le_zero.mp hlen)
    subst this
    cases herr
  | succ f ih =>
    intro seen rem hlen herr
    cases rem with
    | nil => cases herr
    | cons n rest =>
      cases hfr : findReady seen (n :: rest) with
      | none =>
        rintro ⟨l, hperm, hdok⟩
        cases l with
        | nil =>
          have := hperm.length_eq
          simp at this
        | cons m l' =>
          obtain ⟨h1, h2⟩ := depsOkB_cons hdok
          have hm : m ∈ n :: rest := hperm.mem_iff.mp (List.mem_cons_self m l')
          have hfr' :
              List.find? (fun x => x.inputs.all fun a => decide (a ∈ seen)) (n :: rest) =
                none := hfr
          have hnone := List.find?_eq_none.mp hfr' m hm
          apply hnone
          rw [List.all_eq_true]
          intro a ha
          simpa using h1 a ha
      | some m =>
        have hfr' :
            List.find? (fun x => x.inputs.all fun a => decide (a ∈ seen)) (n :: rest) =
              some m := hfr
        have hmem : m ∈ n :: rest := List.mem_of_find?_eq_some hfr'
        have herr' : topoGo f (m.id :: seen) ((n :: rest).erase m) = .error .CycleDetected := by
          cases hrec : topoGo f (m.id :: seen) ((n :: rest).erase m) with
          | ok l =>
            have hok : topoGo (f + 1) seen (n :: rest) = .ok (m :: l) := by
              unfold topoGo
              rw [hfr]
              change (match topoGo f (m.id :: seen) ((n :: rest).erase m) with
                | Except.ok l => Except.ok (m :: l)
                | Except.error e => Except.error e) = _
              rw [hrec]
            rw [hok] at herr
            cases herr
          | error e =>
            have hout : topoGo (f + 1) seen (n :: rest) = .error e := by
              unfold topoGo
              rw [hfr]
              change (match topoGo f (m.id :: seen) ((n :: rest).erase m) with
                | Except.ok l => Except.ok (m :: l)
                | Except.error e => Except.error e) = _
              rw [hrec]
            rw [hout] at herr
            exact herr
        have hlen' : ((n :: rest).erase m).length ≤ f := by
          rw [List.length_erase_of_mem hmem]
          simpa using Nat.le_of_succ_le_succ (by simpa using hlen)
        have hno := ih (m.id :: seen) ((n :: rest).erase m) hlen' herr'
        rintro ⟨l, hperm, hdok⟩
        exact hno ⟨l.erase m, hperm.erase m,
          depsOkB_erase l seen (hperm.mem_iff.mpr hmem) hdok⟩

/-- C7: for every valid Graph, `topological_order()` succeeds and
returns the deterministic insertion-stable sequence of nodes, and
`validate()` on the Graph built from that output succeeds again (never
`CycleDetected` nor `InvalidGraph`); `topological_order()` fails with
`CycleDetected` only when no dependency-respecting enumeration of the
graph exists (the graph is not acyclic). -/
theorem topological_order_contract (g : Graph) :
    (validate g = .ok () → topologicalOrder g = .ok g.nodes) ∧
    (validate g = .ok () →
      ∃ out, topologicalOrder g = .ok out ∧ validate (Graph.mk out) = .ok ()) ∧
    (topologicalOrder g = .error .CycleDetected → ¬ hasTopoOrder g) := by
  refine ⟨fun h => topo_of_valid h, fun h => ⟨g.nodes, topo_of_valid h, h⟩, fun herr => ?_⟩
  intro hord
  exact topoGo_error_no_order g.nodes.length [] g.nodes le_rfl herr hord

/-- A small valid graph: Parameter feeding ReorgYolo feeding Result. -/
def gW : Graph := ⟨[⟨0, "Parameter", []⟩, ⟨1, "ReorgYolo", [0]⟩, ⟨2, "Result", [1]⟩]⟩

/-- A self-referencing graph with a dependency cycle. -/
def gCyc : Graph := ⟨[⟨0, "SelfLoop", [0]⟩]⟩

/-- Witness for C7 at concrete graphs. -/
theorem topological_order_contract_witness :
    topologicalOrder gW = .ok gW.nodes ∧ ¬ hasTopoOrder gCyc :=
  ⟨(topological_order_contract gW).1 (by rfl),
   (topological_order_contract gCyc).2.2 (by rfl)⟩


/-- Modelled from the spec: a lowered Primitive (spec section 3) — it
references the ids of its dependencies by name and is registered under
the generated id of its originating Node. -/
structure Primitive where
  id : Nat
  kind : String
  deps : List Nat
deriving DecidableEq

/-- Modelled from the spec: resolve one node input to the primitive id
that produced it, failing with `UnresolvedDependency` when the producer
was not yet emitted. -/
def resolveInput (emitted : List Nat) (i : Nat) : Except Err Nat :=
  if i ∈ emitted then .ok i else .error .UnresolvedDependency

/-- Resolve all inputs of a node, left to right. -/
def resolveInputs (emitted : List Nat) : List Nat → Except Err (List Nat)
  | [] => .ok []
  | i :: rest =>
    match resolveInput emitted i with
    | .error e => .error e
    | .ok r =>
      match resolveInputs emitted rest with
      | .error e => .error e
      | .ok rs => .ok (r :: rs)

/-- Modelled from the spec: the Program Builder loop (spec section
4.4) — for each node of the topologically ordered traversal, resolve
its inputs against the already emitted primitives, consult the
capability table (unknown kinds fail with `UnsupportedOperation`), and
register the node's anchor primitive under the node's generated id. -/
def buildGo (table : List String) : List Nat → List Node → Except Err (List Primitive)
  | _, [] => .ok []
  | emitted, n :: rest =>
    match resolveInputs emitted n.inputs with
    | .error e => .error e
    | .ok ids =>
      if n.kind ∈ table then
        match buildGo table (n.id :: emitted) rest with
        | .error e => .error e
        | .ok ps => .ok (⟨n.id, n.kind, ids⟩ :: ps)
      else
        .error .UnsupportedOperation

/-- Modelled from the spec: the Program Builder — walks the graph in
topological order and emits the Primitive Program. -/
def buildProgram (table : List String) (g : Graph) : Except Err (List Primitive) :=
  match topologicalOrder g with
  | .error e => .error e
  | .ok order => buildGo table [] order

/-- Every primitive's dependency ids reference primitives emitted
earlier in the program (or already present in `emitted`). -/
def primsWired (emitted : List Nat) : List Primitive → Bool
  | [] => true
  | p :: rest => (p.deps.all fun d => decide (d ∈ emitted)) && primsWired (p.id :: emitted) rest

lemma resolveInputs_ok {emitted : List Nat} :
    ∀ l : List Nat, (∀ i ∈ l, i ∈ emitted) → resolveInputs emitted l = .ok l := by
  intro l
  induction l with
  | nil => intro _; rfl
  | cons i rest ih =>
    intro h
    have hi : resolveInput emitted i = .ok i := by
      simp [resolveInput, h i (List.mem_cons_self i rest)]
    have hrest := ih fun j hj => h j (List.mem_cons.mpr (Or.inr hj))
    unfold resolveInputs
    rw [hi]
    change (match resolveInputs emitted rest with
      | Except.error e => Except.error e
      | Except.ok rs => Except.ok (i :: rs)) = Except.ok (i :: rest)
    rw [hrest]

lemma buildGo_ok {table : List String} :
    ∀ (nodes : List Node) (emitted : List Nat),
      depsOkB emitted nodes = true →
      (∀ n ∈ nodes, n.kind ∈ table) →
      ∃ prog, buildGo table emitted nodes = .ok prog ∧
        prog.map Primitive.id = nodes.map Node.id ∧
        primsWired emitted prog = true := by
  intro nodes
  induction nodes with
  | nil => intro emitted _ _; exact ⟨[], rfl, rfl, rfl⟩
  | cons n rest ih =>
    intro emitted h hk
    obtain ⟨h1, h2⟩ := depsOkB_cons h
    obtain ⟨prog', hbuild, hids, hwired⟩ :=
      ih (n.id :: emitted) h2 fun x hx => hk x (List.mem_cons.mpr (Or.inr hx))
    have hres : resolveInputs emitted n.inputs = .ok n.inputs := resolveInputs_ok _ h1
    have hkind : n.kind ∈ table := hk n (List.mem_cons_self n rest)
    refine ⟨⟨n.id, n.kind, n.inputs⟩ :: prog', ?_, ?_, ?_⟩
    · unfold buildGo
      rw [hres]
      change (if n.kind ∈ table then
          match buildGo table (n.id :: emitted) rest with
          | Except.error e => Except.error e
          | Except.ok ps => Except.ok (⟨n.id, n.kind, n.inputs⟩ :: ps)
        else Except.error Err.UnsupportedOperation) =
        Except.ok (⟨n.id, n.kind, n.inputs⟩ :: prog')
      rw [if_pos hkind, hbuild]
    · simp [hids]
    · simp only [primsWired, Bool.and_eq_true]
      refine ⟨?_, hwired⟩
      rw [List.all_eq_true]
      intro d hd
      simpa using h1 d hd

/-- C1: for every Node of a transformed Graph whose kind is in the
capability table, the Program Builder, walking the graph in topological
order, emits exactly one anchor primitive registered under that Node's
generated id, and every emitted primitive's dependency ids resolve to
primitives emitted earlier in the same build; resolving an input whose
producer was not yet emitted fails with `UnresolvedDependency`. -/
theorem program_builder_lowering :
    (∀ (table : List String) (g : Graph),
      validate g = .ok () →
      (∀ n ∈ g.nodes, n.kind ∈ table) →
      ∃ prog, buildProgram table g = .ok prog ∧
        (∀ n ∈ g.nodes, prog.countP (fun p => p.id == n.id) = 1) ∧
        primsWired [] prog = true) ∧
    (∀ (emitted : List Nat) (i : Nat), i ∉ emitted →
      resolveInput emitted i = .error .UnresolvedDependency) := by
  constructor
  · intro table g hv hk
    obtain ⟨hnodup, hdeps⟩ := validate_ok_iff.mp hv
    obtain ⟨prog, hbuild, hids, hwired⟩ := buildGo_ok g.nodes [] hdeps hk
    refine ⟨prog, ?_, ?_, hwired⟩
    · unfold buildProgram
      rw [topo_of_valid hv]
      exact hbuild
    · intro n hn
      have hcnt : prog.countP (fun p => p.id == n.id) =
          (prog.map Primitive.id).countP (fun x => x == n.id) := by
        rw [List.countP_map]
        rfl
      rw [hcnt, hids]
      have hmem : n.id ∈ g.nodes.map Node.id := List.mem_map_of_mem _ hn
      exact List.count_eq_one_of_mem hnodup hmem
  · intro emitted i hi
    simp [resolveInput, hi]

/-- Capability table for the witness graph. -/
def tableW : List String := ["Parameter", "ReorgYolo", "Result"]

/-- Witness for C1 at a concrete capability table and graph. -/
theorem program_builder_lowering_witness :
    (∃ prog, buildProgram tableW gW = .ok prog ∧
      (∀ n ∈ gW.nodes, prog.countP (fun p => p.id == n.id) = 1) ∧
      primsWired [] prog = true) ∧
    resolveInput [] 5 = .error .UnresolvedDependency :=
  ⟨program_builder_lowering.1 tableW gW (by rfl) (by decide),
   program_builder_lowering.2 [] 5 (by decide)⟩

/-- Modelled from the spec: one sweep of the configured low-precision
passes, applied in the configured order (spec section 4.3). -/
def runPasses (passes : List (Graph → Graph)) (g : Graph) : Graph :=
  passes.foldl (fun acc p => p acc) g

/-- Modelled from the spec: the fixed-point driver of the Low-Precision
Transformation Engine — sweeps run until the graph stops changing or
the configured maximum iteration count is exhausted; the second
component is the convergence flag (`false` reports the non-fatal
`ConvergenceExceeded` condition). -/
def runToFixpoint (passes : List (Graph → Graph)) : Nat → Graph → Graph × Bool
  | 0, g => (g, decide (runPasses passes g = g))
  | fuel + 1, g =>
    let g' := runPasses passes g
    if g' = g then (g, true) else runToFixpoint passes fuel g'

lemma runToFixpoint_converged {passes : List (Graph → Graph)} :
    ∀ (fuel : Nat) (g : Graph),
      (runToFixpoint passes fuel g).2 = true →
      runPasses passes (runToFixpoint passes fuel g).1 = (runToFixpoint passes fuel g).1 := by
  intro fuel
  induction fuel with
  | zero =>
    intro g h
    simpa [runToFixpoint] using of_decide_eq_true (by simpa [runToFixpoint] using h)
  | succ f ih =>
    intro g h
    by_cases hfix : runPasses passes g = g
    · simp [runToFixpoint, hfix]
    · have hstep : runToFixpoint passes (f + 1) g = runToFixpoint passes f (runPasses passes g) := by
        simp [runToFixpoint, hfix]
      rw [hstep] at h ⊢
      exact ih _ h

lemma runToFixpoint_of_fixed {passes : List (Graph → Graph)} {g : Graph}
    (hfix : runPasses passes g = g) :
    ∀ fuel : Nat, runToFixpoint passes fuel g = (g, true) := by
  intro fuel
  cases fuel with
  | zero => simp [runToFixpoint, hfix]
  | succ f => simp [runToFixpoint, hfix]

/-- C2: the fixed-point pipeline of the Low-Precision Transformation
Engine is idempotent — whenever a run converges, re-running the same
pipeline on its output returns that output unchanged (and converged),
so running twice produces a Graph structurally identical to running
once. -/
theorem lpt_pipeline_idempotent :
    ∀ (passes : List (Graph → Graph)) (fuel : Nat) (g : Graph),
      (runToFixpoint passes fuel g).2 = true →
      runToFixpoint passes fuel (runToFixpoint passes fuel g).1 =
        ((runToFixpoint passes fuel g).1, true) := by
  intro passes fuel g h
  exact runToFixpoint_of_fixed (runToFixpoint_converged fuel g h) fuel

/-- A concrete rewrite pass for the witness: drops nodes marked dead. -/
def dropDeadPass (g : Graph) : Graph :=
  ⟨g.nodes.filter fun n => n.kind ≠ "Dead"⟩

/-- A graph containing a dead node, for the witness. -/
def gDead : Graph := ⟨[⟨0, "Parameter", []⟩, ⟨1, "Dead", [0]⟩, ⟨2, "Result", [0]⟩]⟩

/-- Witness for C2 at a concrete pass list, fuel and graph. -/
theorem lpt_pipeline_idempotent_witness :
    runToFixpoint [dropDeadPass] 4 (runToFixpoint [dropDeadPass] 4 gDead).1 =
      ((runToFixpoint [dropDeadPass] 4 gDead).1, true) :=
  lpt_pipeline_idempotent [dropDeadPass] 4 gDead (by rfl)

/-- Modelled from the spec: a dequantization descriptor — an affine
(scale, offset) transform reconstructing an approximate real value from
a discretized one (spec glossary).  Real values are modelled exactly by
rationals. -/
structure Dequantize where
  scale : ℚ
  offset : ℚ
deriving DecidableEq

/-- The effect of a dequantization descriptor on a sample value. -/
def Dequantize.apply (d : Dequantize) (x : ℚ) : ℚ :=
  x * d.scale + d.offset

/-- Modelled from the spec: combining two adjacent dequantization
descriptors on the same edge into one by composing their affine
transforms (scale multiplies, offsets combine accordingly). -/
def Dequantize.compose (d1 d2 : Dequantize) : Dequantize :=
  ⟨d1.scale * d2.scale, d1.offset * d2.scale + d2.offset⟩

/-- C4: composing two dequantization descriptors is sound — for every
sample value the composed descriptor's effect equals applying the first
descriptor then the second (exactly, hence within any tolerance), the
composed scale is the product of the scales, and the offsets combine
through the second scale. -/
theorem dequantize_compose_sound :
    ∀ (d1 d2 : Dequantize) (x : ℚ),
      (d1.compose d2).apply x = d2.apply (d1.apply x) ∧
      (d1.compose d2).scale = d1.scale * d2.scale ∧
      (d1.compose d2).offset = d1.offset * d2.scale + d2.offset := by
  intro d1 d2 x
  refine ⟨?_, rfl, rfl⟩
  simp only [Dequantize.apply, Dequantize.compose]
  ring

/-- Modelled from the spec: signedness of the storage type chosen for a
rewritten tensor. -/
inductive StorageSign where
  | unsignedType
  | signedType
deriving DecidableEq

/-- Modelled from the spec: the signedness is inferred from the
position of zero relative to the quantization interval — an interval
fully at or above zero yields an unsigned type, an interval reaching
below zero yields a signed type. -/
def inferStorageSign (low : ℚ) : StorageSign :=
  if 0 ≤ low then .unsignedType else .signedType

/-- Modelled from the spec: the required level count determines whether
8-bit or wider storage is used. -/
def storageBits (levels : Nat) : Nat :=
  if levels ≤ 256 then 8 else 16

/-- Modelled from the spec: the element type chosen for a rewritten
tensor from signedness and storage width. -/
def chooseElemType (low : ℚ) (levels : Nat) : ElemType :=
  if storageBits levels = 8 then
    match inferStorageSign low with
    | .unsignedType => .u8
    | .signedType => .i8
  else
    match inferStorageSign low with
    | .unsignedType => .u16
    | .signedType => .i16

/-- C5: for every rewritten tensor, the chosen element type's
signedness is determined by the position of zero relative to the
quantization interval (interval entirely at or above zero gives an
unsigned type, interval straddling zero gives a signed type), and the
required level count determines whether 8-bit or wider storage is
used. -/
theorem precision_type_selection :
    ∀ (low high : ℚ) (levels : Nat),
      (0 ≤ low → inferStorageSign low = .unsignedType) ∧
      (low < 0 → 0 < high → inferStorageSign low = .signedType) ∧
      (levels ≤ 256 → storageBits levels = 8) ∧
      (256 < levels → storageBits levels = 16) ∧
      (0 ≤ low → levels ≤ 256 → chooseElemType low levels = .u8) ∧
      (low < 0 → 0 < high → levels ≤ 256 → chooseElemType low levels = .i8) := by
  intro low high levels
  refine ⟨?_, ?_, ?_, ?_, ?_, ?_⟩
  · intro h; simp [inferStorageSign, h]
  · intro h _; simp [inferStorageSign, not_le.mpr h]
  · intro h; simp [storageBits, h]
  · intro h; simp [storageBits, not_le.mpr h]
  · intro h hl; simp [chooseElemType, storageBits, hl, inferStorageSign, h]
  · intro h _ hl; simp [chooseElemType, storageBits, hl, inferStorageSign, not_le.mpr h]

/-- Witness for C5 at the quantization intervals of the test corpus:
interval [0, 2.55] with 256 levels gives `u8`, interval [-1.28, 1.27]
with 256 levels gives `i8`. -/
theorem precision_type_selection_witness :
    chooseElemType 0 256 = .u8 ∧ chooseElemType (-32/25) 256 = .i8 :=
  ⟨(precision_type_selection 0 (51/20) 256).2.2.2.2.1 (by norm_num) (by norm_num),
   (precision_type_selection (-32/25) (127/100) 256).2.2.2.2.2
     (by norm_num) (by norm_num) (by norm_num)⟩

/-- Quantization-boundary attributes: levels and the four interval
bounds (spec section 3, Quantization Descriptor). -/
structure FakeQuantizeAttrs where
  levels : Nat
  inputLow : ℚ
  inputHigh : ℚ
  outputLow : ℚ
  outputHigh : ℚ
deriving DecidableEq

/-- The literal scenario graph: one Parameter feeding one
quantization-boundary node feeding a linear op feeding a Result. -/
structure ScenarioGraph where
  paramShape : List Nat
  paramType : ElemType
  fq : FakeQuantizeAttrs
  linearKind : String
deriving DecidableEq

/-- Outcome of transforming the scenario graph: the Result descriptor
and the single dequantization descriptor left between the boundary and
the linear op. -/
structure TransformedScenario where
  resultShape : List Nat
  resultType : ElemType
  storageType : ElemType
  dequant : Dequantize
deriving DecidableEq

/-- Modelled from the spec: the Low-Precision Transformation Engine on
the scenario graph — the boundary's rescale is represented as a single
dequantization descriptor with scale (outputHigh - outputLow) divided
by (levels - 1) and offset outputLow, the storage type follows the
signedness and level-count rule, and the externally visible Result
element type and shape are never changed by a pass. -/
def transformScenario (g : ScenarioGraph) : TransformedScenario :=
  { resultShape := g.paramShape
    resultType := g.paramType
    storageType := chooseElemType g.fq.outputLow g.fq.levels
    dequant := ⟨(g.fq.outputHigh - g.fq.outputLow) / ((g.fq.levels : ℚ) - 1), g.fq.outputLow⟩ }

/-- The literal scenario of the spec: Parameter of shape [1,3,16,16]
and type f32, a boundary with levels 256 and bounds 0, 2.55, 0, 2.55,
feeding a linear op. -/
def literalScenario : ScenarioGraph :=
  ⟨[1, 3, 16, 16], .f32, ⟨256, 0, 51/20, 0, 51/20⟩, "Convolution"⟩

/-- C3: transforming the literal scenario graph leaves the Result
element type and shape unchanged ([1,3,16,16], f32) and yields a single
dequantization descriptor whose scale is (2.55 - 0) / 255 = 1/100 and
whose offset is 0. -/
theorem lpt_literal_scenario :
    (transformScenario literalScenario).resultType = .f32 ∧
    (transformScenario literalScenario).resultShape = [1, 3, 16, 16] ∧
    (transformScenario literalScenario).dequant.scale = (51/20 - 0) / 255 ∧
    (transformScenario literalScenario).dequant.offset = 0 ∧
    (transformScenario literalScenario).dequant.scale = 1/100 ∧
    (transformScenario literalScenario).storageType = .u8 := by
  refine ⟨rfl, rfl, ?_, rfl, ?_, ?_⟩
  · show ((51:ℚ)/20 - 0) / ((256 : ℚ) - 1) = (51/20 - 0) / 255
    norm_num
  · show ((51:ℚ)/20 - 0) / ((256 : ℚ) - 1) = 1/100
    norm_num
  · show chooseElemType 0 256 = .u8
    simp [chooseElemType, storageBits, inferStorageSign]

/-- A preprocessing conversion step (spec section 4.2): type
conversion, layout conversion, or resize with an algorithm. -/
inductive PreprocStep where
  | convertType (target : ElemType)
  | convertLayout (target : String)
  | resize (alg : String)
deriving DecidableEq

/-- Per-input preprocessing configuration: declared source element
type, source layout, and the ordered list of conversion steps. -/
structure PreprocConfig where
  srcType : ElemType
  srcLayout : String
  steps : List PreprocStep
deriving DecidableEq

/-- Modelled from the spec: the (source-layout, target-layout) pairs
with a known lowering. -/
def supportedLayoutPairs : List (String × String) :=
  [("NHWC", "NCHW"), ("NCHW", "NHWC")]

/-- Modelled from the spec: the (source-type, target-type) pairs with a
known lowering. -/
def supportedTypePairs : List (ElemType × ElemType) :=
  [(.u8, .f32), (.f32, .u8), (.f16, .f32), (.f32, .f16)]

/-- Modelled from the spec: check every requested conversion step in
order, threading the current element type and layout; an unknown
(source, target) pair fails with `UnsupportedConversion`. -/
def checkSteps : ElemType → String → List PreprocStep → Except Err Unit
  | _, _, [] => .ok ()
  | t, l, .convertType t' :: rest =>
    if (t, t') ∈ supportedTypePairs then checkSteps t' l rest
    else .error .UnsupportedConversion
  | t, l, .convertLayout l' :: rest =>
    if (l, l') ∈ supportedLayoutPairs then checkSteps t l' rest
    else .error .UnsupportedConversion
  | t, l, .resize _ :: rest => checkSteps t l rest

/-- The fresh id used for the first inserted node. -/
def freshId (g : Graph) : Nat :=
  (g.nodes.map Node.id).foldr max 0 + 1

/-- The chain of newly inserted operation nodes implementing the
requested steps, in order, each consuming the previous one. -/
def stepNodes : Nat → Nat → List PreprocStep → List Node
  | _, _, [] => []
  | prev, nid, s :: rest =>
    let kind := match s with
      | .convertType _ => "Convert"
      | .convertLayout _ => "Transpose"
      | .resize _ => "Interpolate"
    ⟨nid, kind, [prev]⟩ :: stepNodes nid (nid + 1) rest

/-- The id of the node producing the end of the chain. -/
def chainTail (prev : Nat) (chain : List Node) : Nat :=
  (chain.map Node.id).foldl (fun _ i => i) prev

/-- Splice the chain right after the parameter node and rewire the
parameter's former consumers to the chain tail. -/
def spliceChain (paramId tail : Nat) (chain : List Node) : List Node → List Node
  | [] => []
  | n :: rest =>
    if n.id = paramId then
      n :: chain ++ rest.map fun c =>
        { c with inputs := c.inputs.map fun i => if i = paramId then tail else i }
    else
      n :: spliceChain paramId tail chain rest

/-- Modelled from the spec: the Preprocessing Injector for one input
(spec section 4.2) — validates every requested conversion pair, fully
constructs the replacement chain, and only then splices it into the
graph; a failure therefore leaves the caller's Graph untouched. -/
def insertPreprocessing (g : Graph) (paramId : Nat) (cfg : PreprocConfig) :
    Except Err Graph :=
  match checkSteps cfg.srcType cfg.srcLayout cfg.steps with
  | .error e => .error e
  | .ok () =>
    let chain := stepNodes paramId (freshId g) cfg.steps
    .ok ⟨spliceChain paramId (chainTail paramId chain) chain g.nodes⟩

/-- C6: a pass failure leaves the Graph exactly in its pre-pass state —
requesting a preprocessing conversion whose (source-layout,
target-layout) pair has no known lowering fails with
`UnsupportedConversion`, no partial mutation escapes (the pass returns
only the error, never a partially rewritten graph), and re-running
`validate()` on the original Graph still succeeds. -/
theorem preprocessing_failure_atomic :
    (∀ (g : Graph) (paramId : Nat) (cfg : PreprocConfig),
      validate g = .ok () →
      checkSteps cfg.srcType cfg.srcLayout cfg.steps = .error .UnsupportedConversion →
      insertPreprocessing g paramId cfg = .error .UnsupportedConversion ∧
        validate g = .ok ()) ∧
    (∀ (t : ElemType) (l l' : String) (rest : List PreprocStep),
      (l, l') ∉ supportedLayoutPairs →
      checkSteps t l (.convertLayout l' :: rest) = .error .UnsupportedConversion) := by
  constructor
  · intro g paramId cfg hv hchk
    refine ⟨?_, hv⟩
    unfold insertPreprocessing
    rw [hchk]
  · intro t l l' rest hns
    simp [checkSteps, hns]

/-- Configuration requesting a layout conversion with no known
lowering. -/
def cfgBad : PreprocConfig :=
  ⟨.u8, "NHWC", [.convertLayout "NDHWC"]⟩

/-- Witness for C6 at a concrete valid graph and unsupported layout
pair. -/
theorem preprocessing_failure_atomic_witness :
    (insertPreprocessing gW 0 cfgBad = .error .UnsupportedConversion ∧
      validate gW = .ok ()) ∧
    checkSteps .u8 "NHWC" [.convertLayout "NDHWC"] = .error .UnsupportedConversion :=
  ⟨preprocessing_failure_atomic.1 gW 0 cfgBad (by rfl) (by rfl),
   preprocessing_failure_atomic.2 .u8 "NHWC" "NDHWC" [] (by decide)⟩

/-- An ngraph ReorgYolo operation as seen by the GPU plugin: its
resolved input primitive ids (`GetInputInfo`), its strides attribute,
and its friendly name. -/
structure ReorgYoloOp where
  friendlyName : String
  inputs : List String
  strides : List Nat
deriving DecidableEq

/-- The generated layer name, `layer_type_name_ID(op)`: operation type
name joined with the operation name. -/
def layerTypeNameID (op : ReorgYoloOp) : String :=
  "ReorgYolo:" ++ op.friendlyName

/-- The cldnn primitives emitted by the embedded plugin fragment. -/
inductive GpuPrimitive where
  | reorg_yolo (id : String) (input : String) (stride : Nat)
deriving DecidableEq

/-- The plugin's program under construction: the ordered primitive
list. -/
structure GpuProgram where
  primitives : List GpuPrimitive
deriving DecidableEq

/-- The helper `validate_inputs_count(op, {1})`: throws when the
operation's input count is not among the allowed counts. -/
def validateInputsCount (op : ReorgYoloOp) (allowed : List Nat) : Except String Unit :=
  if op.inputs.length ∈ allowed then .ok ()
  else .error "Invalid inputs count"

/-- Embedding of `CreateReorgYoloOp` from
src/plugins/intel_gpu/src/plugin/ops/reorg_yolo.cpp: validate the
input count against {1}, read `stride` from `op->get_strides()[0]`,
build one `reorg_yolo` primitive named by `layer_type_name_ID`, and add
it to the program. -/
def CreateReorgYoloOp (p : GpuProgram) (op : ReorgYoloOp) : Except String GpuProgram :=
  match validateInputsCount op [1] with
  | .error e => .error e
  | .ok () =>
    let layerName := layerTypeNameID op
    let stride := op.strides.headI
    let reorgPrim := GpuPrimitive.reorg_yolo layerName op.inputs.headI stride
    .ok ⟨p.primitives ++ [reorgPrim]⟩

/-- C8: lowering a ReorgYolo node requires exactly one input —
`CreateReorgYoloOp` fails when the input count differs from 1, and
otherwise registers exactly one `reorg_yolo` primitive under the
layer's generated name, with its stride taken from the first element of
the node's strides attribute. -/
theorem create_reorg_yolo_contract :
    ∀ (p : GpuProgram) (op : ReorgYoloOp),
      (op.inputs.length ≠ 1 → ∃ e, CreateReorgYoloOp p op = .error e) ∧
      (op.inputs.length = 1 →
        CreateReorgYoloOp p op =
          .ok ⟨p.primitives ++
            [.reorg_yolo (layerTypeNameID op) op.inputs.headI op.strides.headI]⟩) ∧
      (∀ s rest, op.strides = s :: rest → op.strides.headI = s) := by
  intro p op
  refine ⟨?_, ?_, ?_⟩
  · intro h
    refine ⟨"Invalid inputs count", ?_⟩
    have hvc : validateInputsCount op [1] = .error "Invalid inputs count" := by
      simp [validateInputsCount, h]
    unfold CreateReorgYoloOp
    rw [hvc]
  · intro h
    have hvc : validateInputsCount op [1] = .ok () := by
      simp [validateInputsCount, h]
    unfold CreateReorgYoloOp
    rw [hvc]
  · intro s rest hs
    rw [hs]
    rfl

/-- A one-input ReorgYolo operation for the witness. -/
def opYolo : ReorgYoloOp := ⟨"yolo1", ["input0"], [2]⟩

/-- A ReorgYolo operation with a wrong input count for the witness. -/
def opYoloBad : ReorgYoloOp := ⟨"yolo2", ["a", "b"], [2]⟩

/-- Witness for C8 at concrete operations. -/
theorem create_reorg_yolo_contract_witness :
    (∃ e, CreateReorgYoloOp ⟨[]⟩ opYoloBad = .error e) ∧
    CreateReorgYoloOp ⟨[]⟩ opYolo =
      .ok ⟨[.reorg_yolo (layerTypeNameID opYolo) "input0" 2]⟩ :=
  ⟨(create_reorg_yolo_contract ⟨[]⟩ opYoloBad).1 (by decide),
   (create_reorg_yolo_contract ⟨[]⟩ opYolo).2.1 (by decide)⟩

/-- Embedding of the cldnn `deconvolution` primitive (header appended
to src/plugins/intel_gpu/src/plugin/ops/reorg_yolo.cpp): the fields
referenced by its constructors and by `get_dependencies`. -/
structure deconvolution where
  id : String
  input : String
  pad : List Int
  stride : List Nat
  dilations : List Nat
  with_output_size : Bool
  groups : Nat
  grouped_weights_shape : Bool
  output_shape_id : String
  weights : List String
  bias : List String
deriving DecidableEq

/-- Embedding of the w/o-bias `deconvolution` constructor: bias is the
empty vector and `output_shape_id` the empty string. -/
def deconvolution.mkNoBias (id input : String) (weights : List String)
    (stride : List Nat) (pad : List Int) (dilations : List Nat) : deconvolution :=
  ⟨id, input, pad, stride, dilations, false, 1, false, "", weights, []⟩

/-- Embedding of `deconvolution::get_dependencies`: all weights ids,
then all bias ids, then `output_shape_id` when it is non-empty. -/
def deconvolution.get_dependencies (d : deconvolution) : List String :=
  d.weights ++ d.bias ++ (if d.output_shape_id = "" then [] else [d.output_shape_id])

/-- C9: `get_dependencies` returns exactly the weights ids followed by
the bias ids, followed by `output_shape_id` only when it is non-empty,
in that order; a deconvolution constructed without bias and without an
output-shape primitive therefore contributes exactly as many extra
dependency ids as it has weights. -/
theorem deconvolution_dependencies :
    (∀ d : deconvolution, d.output_shape_id = "" →
      d.get_dependencies = d.weights ++ d.bias) ∧
    (∀ d : deconvolution, d.output_shape_id ≠ "" →
      d.get_dependencies = d.weights ++ d.bias ++ [d.output_shape_id]) ∧
    (∀ (id input : String) (weights : List String) (stride : List Nat)
        (pad : List Int) (dilations : List Nat),
      (deconvolution.mkNoBias id input weights stride pad dilations).get_dependencies =
        weights ∧
      (deconvolution.mkNoBias id input weights stride pad dilations).get_dependencies.length =
        weights.length) := by
  refine ⟨?_, ?_, ?_⟩
  · intro d h
    simp [deconvolution.get_dependencies, h]
  · intro d h
    simp [deconvolution.get_dependencies, h]
  · intro id input weights stride pad dilations
    constructor
    · simp [deconvolution.get_dependencies, deconvolution.mkNoBias]
    · simp [deconvolution.get_dependencies, deconvolution.mkNoBias]

/-- A deconvolution with an output-shape primitive id, for the
witness. -/
def deconvShaped : deconvolution :=
  ⟨"deconv1", "in0", [0, 0], [1, 1], [1, 1], false, 1, false, "shape0", ["w0", "w1"], ["b0"]⟩

/-- Witness for C9 at concrete deconvolution primitives. -/
theorem deconvolution_dependencies_witness :
    deconvShaped.get_dependencies = ["w0", "w1"] ++ ["b0"] ++ ["shape0"] ∧
    (deconvolution.mkNoBias "d2" "in1" ["w2", "w3"] [1, 1] [0, 0] [1, 1]).get_dependencies =
      ["w2", "w3"] :=
  ⟨deconvolution_dependencies.2.1 deconvShaped (by decide),
   (deconvolution_dependencies.2.2 "d2" "in1" ["w2", "w3"] [1, 1] [0, 0] [1, 1]).1⟩

/-- An image reader as produced by the format-reader library: the
decoded dimensions and pixel data. -/
structure Reader where
  height : Nat
  width : Nat
  data : List Nat
deriving DecidableEq

/-- Modelled from the spec: `CreateFormatReader` — the factory behind
`ReaderPtr` is not among the available source files; it returns a null
pointer (here `none`) for a path that cannot be read, and never throws.
The ambient filesystem is passed explicitly as a function. -/
def CreateFormatReader (fs : String → Option Reader) (imageName : String) :
    Option Reader :=
  fs imageName

/-- Embedding of `FormatReader::ReaderPtr`
(samples/cpp/common/format_reader/format_reader_ptr.h): a wrapper
owning the possibly-null reader produced by `CreateFormatReader`. -/
structure ReaderPtr where
  reader : Option Reader
deriving DecidableEq

/-- The `ReaderPtr(const char*)` constructor. -/
def ReaderPtr.make (fs : String → Option Reader) (imageName : String) : ReaderPtr :=
  ⟨CreateFormatReader fs imageName⟩

/-- Embedding of `ReaderPtr::get()`: forwards the possibly-null owned pointer. -/
def ReaderPtr.get (p : ReaderPtr) : Option Reader :=
  p.reader

/-- Embedding of `ReaderPtr::operator->()` (noexcept): forwards the possibly-null
owned pointer without checking. -/
def ReaderPtr.opArrow (p : ReaderPtr) : Option Reader :=
  p.reader

/-- Embedding of `ReaderPtr::operator*()` (noexcept): forwards the possibly-null
owned pointer without checking. -/
def ReaderPtr.opStar (p : ReaderPtr) : Option Reader :=
  p.reader

/-- Embedding of the caller-side null check from
samples/cpp/hello_classification/main.cpp: construct the ReaderPtr,
test `get()` against null, and only then use the reader. -/
def readInputImage (fs : String → Option Reader) (imagePath : String) :
    Except String Reader :=
  let reader := ReaderPtr.make fs imagePath
  match reader.get with
  | none => .error ("Image " ++ imagePath ++ " cannot be read!")
  | some r => .ok r

/-- C10: constructing a `ReaderPtr` on an unreadable image path is a
total operation (no exception in the model) yielding a wrapper whose
`get()` returns null; `operator->` and `operator*` simply forward the
possibly-null pointer, and the public caller checks `get()` for null
before use, failing cleanly on a null reader. -/
theorem reader_ptr_null_contract :
    ∀ (fs : String → Option Reader) (name : String),
      ((ReaderPtr.make fs name).opArrow = (ReaderPtr.make fs name).get ∧
       (ReaderPtr.make fs name).opStar = (ReaderPtr.make fs name).get) ∧
      (fs name = none →
        (ReaderPtr.make fs name).get = none ∧
        readInputImage fs name = .error ("Image " ++ name ++ " cannot be read!")) := by
  intro fs name
  refine ⟨⟨rfl, rfl⟩, ?_⟩
  intro h
  constructor
  · simp [ReaderPtr.make, ReaderPtr.get, CreateFormatReader, h]
  · simp [readInputImage, ReaderPtr.make, ReaderPtr.get, CreateFormatReader, h]

/-- An empty filesystem in which no image path is readable. -/
def emptyFs : String → Option Reader := fun _ => none

/-- Witness for C10 at a concrete filesystem and path. -/
theorem reader_ptr_null_contract_witness :
    (ReaderPtr.make emptyFs "cat.bmp").get = none ∧
    readInputImage emptyFs "cat.bmp" = .error ("Image " ++ "cat.bmp" ++ " cannot be read!") :=
  (reader_ptr_null_contract emptyFs "cat.bmp").2 (by rfl)
